import Mathlib

/-!
Shallow embedding of the `intervals-rs` interval-algebra crate.

The embedding follows the value-level (`BoundType`) instantiation of the
source: the statically-typed boundary kinds `Inclusive` / `Exclusive` are
zero-sized Rust types whose only runtime content is selected by the type
parameter, so an interval of any of the four static shapes is represented
here by an `Interval` whose two `bounding` fields carry the corresponding
`BoundType` value (the mapping performed by the source's `IntoGeneral`).
A separate `StaticInterval` structure models the statically-typed shape
itself for the widening claims.
-/

namespace IntervalsRs

/-- `BoundType` (src/inclusion.rs): whether an endpoint includes or excludes
its limit value. -/
inductive BoundType : Type where
  | inclusive : BoundType
  | exclusive : BoundType
deriving DecidableEq, Repr

namespace BoundType

/-- `Flip for BoundType` (src/inclusion.rs): swap Inclusive and Exclusive. -/
def flip : BoundType → BoundType
  | inclusive => exclusive
  | exclusive => inclusive

/-- `Boundary::less` (src/inclusion.rs): does a left endpoint of this kind
at `s` admit the value `t`? Inclusive admits `s ≤ t`, Exclusive `s < t`. -/
def less {T : Type} [LinearOrder T] : BoundType → T → T → Bool
  | inclusive, s, t => decide (s ≤ t)
  | exclusive, s, t => decide (s < t)

/-- The right-side counterpart used by `RightBounded::contains`
(`greater_eq` in src/core.rs): Inclusive admits `t ≤ s`, Exclusive `t < s`. -/
def greater {T : Type} [LinearOrder T] : BoundType → T → T → Bool
  | inclusive, s, t => decide (t ≤ s)
  | exclusive, s, t => decide (t < s)

/-- Tie-break sort key of `SideInclusion<BoundType, Left>` (src/inclusion.rs):
on the left side Inclusive sorts before Exclusive. -/
def leftKey : BoundType → Nat
  | inclusive => 0
  | exclusive => 1

/-- Tie-break sort key of `SideInclusion<BoundType, Right>` (src/inclusion.rs):
on the right side Exclusive sorts before Inclusive. -/
def rightKey : BoundType → Nat
  | exclusive => 0
  | inclusive => 1

end BoundType

/-- `Bound` (src/lib.rs): a limit value paired with a boundary kind. -/
structure Bound (T : Type) where
  limit : T
  bounding : BoundType
deriving DecidableEq, Repr

/-- `LeftBounded<T, B>` (src/half.rs): the lower endpoint of an interval,
describing the half-line of values the endpoint admits on its right. -/
structure LeftBounded (T : Type) where
  limit : T
  bounding : BoundType
deriving DecidableEq, Repr

/-- `RightBounded<T, B>` (src/half.rs): the upper endpoint of an interval. -/
structure RightBounded (T : Type) where
  limit : T
  bounding : BoundType
deriving DecidableEq, Repr

/-- `From<Bound<T, B>> for HalfBounded<T, B, Left>` (src/half.rs). -/
def Bound.toLeft {T : Type} (b : Bound T) : LeftBounded T :=
  ⟨b.limit, b.bounding⟩

/-- `From<Bound<T, B>> for HalfBounded<T, B, Right>` (src/half.rs). -/
def Bound.toRight {T : Type} (b : Bound T) : RightBounded T :=
  ⟨b.limit, b.bounding⟩

/-- Lexicographic order on `(limit, tie-break key)` pairs: the comparison the
source performs through `HalfBounded::cmp`, whose `ordering_key` is the tuple
`(&self.limit, self.bounding.into_ordered())` compared lexicographically. -/
def lexLt {T : Type} [LinearOrder T] (x y : T × Nat) : Prop :=
  x.1 < y.1 ∨ (x.1 = y.1 ∧ x.2 < y.2)

instance {T : Type} [LinearOrder T] (x y : T × Nat) : Decidable (lexLt x y) := by
  unfold lexLt; infer_instance

namespace LeftBounded

variable {T : Type} [LinearOrder T]

/-- `LeftBounded::contains` (src/half.rs): `self.bounding.less(&self.limit, t)`. -/
def contains (a : LeftBounded T) (t : T) : Bool :=
  a.bounding.less a.limit t

/-- `LeftBounded::includes` (src/half.rs): `self.limit <= other.limit`. -/
def includes (a b : LeftBounded T) : Bool :=
  decide (a.limit ≤ b.limit)

/-- The strict order `HalfBounded::cmp` induces on left endpoints
(src/half.rs `ordering_key` with the Left-side tie-break of src/inclusion.rs). -/
def lt (a b : LeftBounded T) : Prop :=
  lexLt (a.limit, a.bounding.leftKey) (b.limit, b.bounding.leftKey)

instance (a b : LeftBounded T) : Decidable (a.lt b) := by
  unfold lt; infer_instance

/-- Rust `Ord::max` (= `std::cmp::max`): returns the second argument on ties. -/
def max (a b : LeftBounded T) : LeftBounded T :=
  if b.lt a then a else b

/-- Rust `Ord::min` (= `std::cmp::min`): returns the first argument on ties. -/
def min (a b : LeftBounded T) : LeftBounded T :=
  if b.lt a then b else a

/-- `LeftBounded::intersection` (src/half.rs): `self.max(other)`. -/
def intersection (a b : LeftBounded T) : LeftBounded T :=
  a.max b

/-- `LeftBounded::union` (src/half.rs): `self.min(other)`. -/
def union (a b : LeftBounded T) : LeftBounded T :=
  a.min b

end LeftBounded

/-- `Flip for HalfBounded` on a left endpoint (src/half.rs): the complementary
half-line, reinterpreted as a right endpoint with the boundary kind flipped. -/
def LeftBounded.flip {T : Type} (a : LeftBounded T) : RightBounded T :=
  ⟨a.limit, a.bounding.flip⟩

namespace RightBounded

variable {T : Type} [LinearOrder T]

/-- `RightBounded::contains` (src/half.rs): `self.bounding.greater(&self.limit, t)`. -/
def contains (a : RightBounded T) (t : T) : Bool :=
  a.bounding.greater a.limit t

/-- `RightBounded::includes` (src/half.rs): `other.limit <= self.limit`. -/
def includes (a b : RightBounded T) : Bool :=
  decide (b.limit ≤ a.limit)

/-- The strict order `HalfBounded::cmp` induces on right endpoints
(src/half.rs `ordering_key` with the Right-side tie-break of src/inclusion.rs). -/
def lt (a b : RightBounded T) : Prop :=
  lexLt (a.limit, a.bounding.rightKey) (b.limit, b.bounding.rightKey)

instance (a b : RightBounded T) : Decidable (a.lt b) := by
  unfold lt; infer_instance

/-- Rust `Ord::max` for right endpoints. -/
def max (a b : RightBounded T) : RightBounded T :=
  if b.lt a then a else b

/-- Rust `Ord::min` for right endpoints. -/
def min (a b : RightBounded T) : RightBounded T :=
  if b.lt a then b else a

/-- `RightBounded::intersection` (src/half.rs): `self.min(other)`. -/
def intersection (a b : RightBounded T) : RightBounded T :=
  a.min b

/-- `RightBounded::union` (src/half.rs): `self.max(other)`. -/
def union (a b : RightBounded T) : RightBounded T :=
  a.max b

end RightBounded

/-- `Flip for HalfBounded` on a right endpoint (src/half.rs). -/
def RightBounded.flip {T : Type} (a : RightBounded T) : LeftBounded T :=
  ⟨a.limit, a.bounding.flip⟩

/-- `Interval` (src/interval.rs): a lower and an upper endpoint. The source
keeps the validity invariant by construction through `Interval::new`; here the
invariant is the explicit predicate `isValidInterval`. -/
structure Interval (T : Type) where
  left : LeftBounded T
  right : RightBounded T
deriving DecidableEq, Repr

/-- `is_valid_interval` (src/interval.rs):
`left.contains(&right.val) && right.contains(&left.val)`. -/
def isValidInterval {T : Type} [LinearOrder T]
    (l : LeftBounded T) (r : RightBounded T) : Bool :=
  l.contains r.limit && r.contains l.limit

namespace Interval

variable {T : Type} [LinearOrder T]

/-- `Interval::new_` (src/interval.rs): validate, then build. -/
def new_ (l : LeftBounded T) (r : RightBounded T) : Option (Interval T) :=
  if isValidInterval l r then some ⟨l, r⟩ else none

/-- `Interval::new` (src/interval.rs): the single validating constructor. -/
def new (l r : Bound T) : Option (Interval T) :=
  new_ l.toLeft r.toRight

/-- `Interval::contains` (src/interval.rs). -/
def contains (I : Interval T) (t : T) : Bool :=
  I.left.contains t && I.right.contains t

/-- `Interval::includes` (src/interval.rs). -/
def includes (I J : Interval T) : Bool :=
  I.left.includes J.left && I.right.includes J.right

/-- `Interval::overlaps` (src/interval.rs): re-check the validity predicate on
`max` of the left endpoints and `min` of the right endpoints. -/
def overlaps (I J : Interval T) : Bool :=
  isValidInterval (I.left.max J.left) (I.right.min J.right)

/-- `Interval::intersection` (src/interval.rs). -/
def intersection (I J : Interval T) : Option (Interval T) :=
  new_ (I.left.intersection J.left) (I.right.intersection J.right)

/-- `Interval::enclosure` (src/interval.rs): built directly, not re-validated. -/
def enclosure (I J : Interval T) : Interval T :=
  ⟨I.left.union J.left, I.right.union J.right⟩

/-- `Interval::gap` (src/interval.rs): try both orientations with `Option::or`. -/
def gap (I J : Interval T) : Option (Interval T) :=
  match new_ I.right.flip J.left.flip with
  | some g => some g
  | none => new_ J.right.flip I.left.flip

end Interval

/-- `Bound::to` (src/lib.rs): `Interval::new(self, right)`. -/
def Bound.to {T : Type} [LinearOrder T] (l r : Bound T) : Option (Interval T) :=
  Interval.new l r

/-- `IntervalUnion` (src/interval.rs): return type of `Interval::union`. -/
structure IntervalUnion (T : Type) where
  enclosure : Interval T
  gap : Option (Interval T)

/-- `Interval::union` (src/interval.rs). -/
def Interval.union {T : Type} [LinearOrder T] (I J : Interval T) : IntervalUnion T :=
  ⟨I.enclosure J, I.gap J⟩

/-- `IntoIterator for IntervalUnion` (src/interval.rs): with a gap, the
enclosure split at the gap's flipped bounds; otherwise the enclosure alone. -/
def IntervalUnion.toList {T : Type} (u : IntervalUnion T) : List (Interval T) :=
  match u.gap with
  | some g => [⟨u.enclosure.left, g.left.flip⟩, ⟨g.right.flip, u.enclosure.right⟩]
  | none => [u.enclosure]

/-- `Minimum for LeftBounded<T, Bounding>` over an integer domain
(src/half.rs): an Exclusive integer lower endpoint starts at `limit + 1`. -/
def LeftBounded.minimum (a : LeftBounded Int) : Int :=
  match a.bounding with
  | .inclusive => a.limit
  | .exclusive => a.limit + 1

/-- `Maximum for RightBounded<T, Bounding>` over an integer domain
(src/half.rs): an Exclusive integer upper endpoint ends at `limit - 1`. -/
def RightBounded.maximum (a : RightBounded Int) : Int :=
  match a.bounding with
  | .inclusive => a.limit
  | .exclusive => a.limit - 1

/-- `Interval::min` / the `Minimum` impl for `Interval` (src/interval.rs). -/
def Interval.minimum (I : Interval Int) : Int :=
  I.left.minimum

/-- `Interval::max` / the `Maximum` impl for `Interval` (src/interval.rs). -/
def Interval.maximum (I : Interval Int) : Int :=
  I.right.maximum

/-- A bound of the statically-typed shape `Bound<T, Inclusive>` or
`Bound<T, Exclusive>` (src/lib.rs): the boundary kind is fixed by the type
parameter `B`, so the only runtime field is the limit. -/
structure SBound (T : Type) (B : BoundType) where
  limit : T
deriving DecidableEq, Repr

/-- A statically-typed `Interval<T, L, R>` with `L`, `R` each `Inclusive` or
`Exclusive` (src/interval.rs): both boundary kinds fixed by type parameters. -/
structure StaticInterval (T : Type) (L R : BoundType) where
  left : SBound T L
  right : SBound T R
deriving DecidableEq, Repr

/-- `IntoGeneral for Inclusive/Exclusive` lifted to a bound (src/inclusion.rs):
keep the limit and materialize the static kind as a `BoundType` value. -/
def SBound.intoGeneral {T : Type} {B : BoundType} (b : SBound T B) : Bound T :=
  ⟨b.limit, B⟩

/-- `IntoGeneral for Interval` (src/interval.rs): generalize both endpoints. -/
def StaticInterval.intoGeneral {T : Type} {L R : BoundType}
    (I : StaticInterval T L R) : Interval T :=
  ⟨⟨I.left.limit, L⟩, ⟨I.right.limit, R⟩⟩

/-- `Interval::contains` at a statically-typed instantiation (src/interval.rs
with the `Boundary::less` impls of the fixed kinds, src/inclusion.rs). -/
def StaticInterval.contains {T : Type} [LinearOrder T] {L R : BoundType}
    (I : StaticInterval T L R) (t : T) : Bool :=
  L.less I.left.limit t && R.greater I.right.limit t

/-! ### Order and containment lemmas about the endpoint types -/

namespace LeftBounded

variable {T : Type} [LinearOrder T] {a b c : LeftBounded T} {t : T}

theorem contains_iff :
    a.contains t = true ↔
      a.limit < t ∨ (a.limit = t ∧ a.bounding = .inclusive) := by
  cases h : a.bounding <;>
    simp [contains, BoundType.less, h, le_iff_lt_or_eq]

theorem lt_iff :
    a.lt b ↔ a.limit < b.limit ∨
      (a.limit = b.limit ∧ a.bounding = .inclusive ∧ b.bounding = .exclusive) := by
  cases ha : a.bounding <;> cases hb : b.bounding <;>
    simp [lt, lexLt, BoundType.leftKey, ha, hb]

theorem not_lt_self : ¬ a.lt a := by
  simp only [lt_iff, lt_irrefl, false_or, not_and]
  rintro - h
  simp [h]

theorem lt_asymm (h : a.lt b) : ¬ b.lt a := by
  rcases lt_iff.mp h with h1 | ⟨h1, h2, h3⟩ <;> intro h' <;>
    rcases lt_iff.mp h' with h1' | ⟨h1', h2', h3'⟩
  · exact absurd (h1.trans h1') (lt_irrefl _)
  · exact absurd h1 (h1' ▸ lt_irrefl _)
  · exact absurd h1' (h1 ▸ lt_irrefl _)
  · simp [h2, h3] at h2' h3'

theorem lt_trans (h1 : a.lt b) (h2 : b.lt c) : a.lt c := by
  rcases lt_iff.mp h1 with ha | ⟨ha, ha2, ha3⟩ <;>
    rcases lt_iff.mp h2 with hb | ⟨hb, hb2, hb3⟩
  · exact lt_iff.mpr (Or.inl (ha.trans hb))
  · exact lt_iff.mpr (Or.inl (hb ▸ ha))
  · exact lt_iff.mpr (Or.inl (ha ▸ hb))
  · simp [ha3] at hb2

theorem eq_or_lt_of_not_lt (h : ¬ b.lt a) : a = b ∨ a.lt b := by
  rcases lt_trichotomy a.limit b.limit with hl | hl | hl
  · exact Or.inr (lt_iff.mpr (Or.inl hl))
  · cases ha : a.bounding <;> cases hb : b.bounding
    · left
      cases a; cases b; simp_all
    · exact Or.inr (lt_iff.mpr (Or.inr ⟨hl, ha, hb⟩))
    · exact absurd (lt_iff.mpr (Or.inr ⟨hl.symm, hb, ha⟩)) h
    · left
      cases a; cases b; simp_all
  · exact absurd (lt_iff.mpr (Or.inl hl)) h

theorem contains_of_lt (hab : a.lt b) (h : b.contains t = true) :
    a.contains t = true := by
  have hbt : b.limit ≤ t := by
    rcases contains_iff.mp h with h' | ⟨h', _⟩
    · exact h'.le
    · exact h'.le
  rcases lt_iff.mp hab with h1 | ⟨h1, h2, h3⟩
  · exact contains_iff.mpr (Or.inl (h1.trans_le hbt))
  · rcases contains_iff.mp h with h' | ⟨_, h''⟩
    · exact contains_iff.mpr (Or.inl (h1 ▸ h'))
    · simp [h3] at h''

theorem contains_of_not_lt (hab : ¬ b.lt a) (h : b.contains t = true) :
    a.contains t = true := by
  rcases eq_or_lt_of_not_lt hab with rfl | hab
  · exact h
  · exact contains_of_lt hab h

theorem min_eq_or : a.min b = a ∨ a.min b = b := by
  unfold min; split <;> simp

theorem max_eq_or : a.max b = a ∨ a.max b = b := by
  unfold max; split <;> simp

theorem min_eq_left (h : ¬ b.lt a) : a.min b = a := by
  unfold min; exact if_neg h

theorem min_eq_right (h : b.lt a) : a.min b = b := by
  unfold min; exact if_pos h

theorem not_lt_min_left : ¬ a.lt (a.min b) := by
  unfold min; split
  · next h => exact lt_asymm h
  · exact not_lt_self

theorem not_lt_min_right : ¬ b.lt (a.min b) := by
  unfold min; split
  · exact not_lt_self
  · next h => exact h

theorem not_max_lt_left : ¬ (a.max b).lt a := by
  unfold max; split
  · exact not_lt_self
  · next h => exact h

theorem not_max_lt_right : ¬ (a.max b).lt b := by
  unfold max; split
  · next h => exact lt_asymm h
  · exact not_lt_self

theorem flip_flip : a.flip.flip = a := by
  cases h : a.bounding <;> cases a <;>
    simp_all [flip, RightBounded.flip, BoundType.flip]

end LeftBounded

namespace RightBounded

variable {T : Type} [LinearOrder T] {a b c : RightBounded T} {t : T}

theorem contains_iff' :
    a.contains t = true ↔
      t < a.limit ∨ (t = a.limit ∧ a.bounding = .inclusive) := by
  cases h : a.bounding <;>
    simp [contains, BoundType.greater, h, le_iff_lt_or_eq]

theorem lt_iff' :
    a.lt b ↔ a.limit < b.limit ∨
      (a.limit = b.limit ∧ a.bounding = .exclusive ∧ b.bounding = .inclusive) := by
  cases ha : a.bounding <;> cases hb : b.bounding <;>
    simp [lt, lexLt, BoundType.rightKey, ha, hb]

theorem not_lt_self' : ¬ a.lt a := by
  simp only [lt_iff', lt_irrefl, false_or, not_and]
  rintro - h
  simp [h]

theorem lt_asymm' (h : a.lt b) : ¬ b.lt a := by
  rcases lt_iff'.mp h with h1 | ⟨h1, h2, h3⟩ <;> intro h' <;>
    rcases lt_iff'.mp h' with h1' | ⟨h1', h2', h3'⟩
  · exact absurd (h1.trans h1') (lt_irrefl _)
  · exact absurd h1 (h1' ▸ lt_irrefl _)
  · exact absurd h1' (h1 ▸ lt_irrefl _)
  · simp [h2, h3] at h2' h3'

theorem lt_trans' (h1 : a.lt b) (h2 : b.lt c) : a.lt c := by
  rcases lt_iff'.mp h1 with ha | ⟨ha, ha2, ha3⟩ <;>
    rcases lt_iff'.mp h2 with hb | ⟨hb, hb2, hb3⟩
  · exact lt_iff'.mpr (Or.inl (ha.trans hb))
  · exact lt_iff'.mpr (Or.inl (hb ▸ ha))
  · exact lt_iff'.mpr (Or.inl (ha ▸ hb))
  · simp [ha3] at hb2

theorem eq_or_lt_of_not_lt' (h : ¬ b.lt a) : a = b ∨ a.lt b := by
  rcases lt_trichotomy a.limit b.limit with hl | hl | hl
  · exact Or.inr (lt_iff'.mpr (Or.inl hl))
  · cases ha : a.bounding <;> cases hb : b.bounding
    · left
      cases a; cases b; simp_all
    · exact absurd (lt_iff'.mpr (Or.inr ⟨hl.symm, hb, ha⟩)) h
    · exact Or.inr (lt_iff'.mpr (Or.inr ⟨hl, ha, hb⟩))
    · left
      cases a; cases b; simp_all
  · exact absurd (lt_iff'.mpr (Or.inl hl)) h

theorem contains_of_lt' (hab : a.lt b) (h : a.contains t = true) :
    b.contains t = true := by
  have hta : t ≤ a.limit := by
    rcases contains_iff'.mp h with h' | ⟨h', _⟩
    · exact h'.le
    · exact h'.le
  rcases lt_iff'.mp hab with h1 | ⟨h1, h2, h3⟩
  · exact contains_iff'.mpr (Or.inl (hta.trans_lt h1))
  · rcases contains_iff'.mp h with h' | ⟨_, h''⟩
    · exact contains_iff'.mpr (Or.inl (h1 ▸ h'))
    · simp [h2] at h''

theorem contains_of_not_lt' (hab : ¬ b.lt a) (h : a.contains t = true) :
    b.contains t = true := by
  rcases eq_or_lt_of_not_lt' hab with rfl | hab
  · exact h
  · exact contains_of_lt' hab h

theorem min_eq_or' : a.min b = a ∨ a.min b = b := by
  unfold min; split <;> simp

theorem max_eq_or' : a.max b = a ∨ a.max b = b := by
  unfold max; split <;> simp

theorem max_eq_left' (h : b.lt a) : a.max b = a := by
  unfold max; exact if_pos h

theorem max_eq_right' (h : ¬ b.lt a) : a.max b = b := by
  unfold max; exact if_neg h

theorem not_lt_min_left' : ¬ a.lt (a.min b) := by
  unfold min; split
  · next h => exact lt_asymm' h
  · exact not_lt_self'

theorem not_lt_min_right' : ¬ b.lt (a.min b) := by
  unfold min; split
  · exact not_lt_self'
  · next h => exact h

theorem not_max_lt_left' : ¬ (a.max b).lt a := by
  unfold max; split
  · exact not_lt_self'
  · next h => exact h

theorem not_max_lt_right' : ¬ (a.max b).lt b := by
  unfold max; split
  · next h => exact lt_asymm' h
  · exact not_lt_self'

theorem flip_flip' : a.flip.flip = a := by
  cases h : a.bounding <;> cases a <;>
    simp_all [flip, LeftBounded.flip, BoundType.flip]

end RightBounded

namespace IntervalsLemmas

variable {T : Type} [LinearOrder T]

theorem isValid_iff {l : LeftBounded T} {r : RightBounded T} :
    isValidInterval l r = true ↔
      l.contains r.limit = true ∧ r.contains l.limit = true := by
  simp [isValidInterval]

/-- A valid interval's left endpoint sits strictly before the left
reinterpretation of its right endpoint. -/
theorem left_lt_flip_of_valid {l : LeftBounded T} {r : RightBounded T}
    (h : isValidInterval l r = true) : l.lt r.flip := by
  obtain ⟨h1, h2⟩ := isValid_iff.mp h
  rcases LeftBounded.contains_iff.mp h1 with hl | ⟨hl, hk⟩
  · exact LeftBounded.lt_iff.mpr (Or.inl hl)
  · rcases RightBounded.contains_iff'.mp h2 with hr | ⟨_, hk'⟩
    · exact absurd hr (hl ▸ lt_irrefl _)
    · exact LeftBounded.lt_iff.mpr
        (Or.inr ⟨hl, hk, by simp [RightBounded.flip, hk', BoundType.flip]⟩)

/-- A valid interval's flipped left endpoint sits strictly before its right
endpoint in the right-side order. -/
theorem flip_lt_right_of_valid {l : LeftBounded T} {r : RightBounded T}
    (h : isValidInterval l r = true) : (l.flip).lt r := by
  obtain ⟨h1, h2⟩ := isValid_iff.mp h
  rcases RightBounded.contains_iff'.mp h2 with hr | ⟨hr, hk⟩
  · exact RightBounded.lt_iff'.mpr (Or.inl hr)
  · rcases LeftBounded.contains_iff.mp h1 with hl | ⟨_, hk'⟩
    · exact absurd hl (hr ▸ lt_irrefl _)
    · exact RightBounded.lt_iff'.mpr
        (Or.inr ⟨hr, by simp [LeftBounded.flip, hk', BoundType.flip], hk⟩)

/-- No value lies both in a right endpoint's half-line and in its flipped
complement. -/
theorem flip_right_disjoint {r : RightBounded T} {t : T} :
    ¬((r.flip).contains t = true ∧ r.contains t = true) := by
  rintro ⟨h1, h2⟩
  cases h : r.bounding <;>
    simp only [LeftBounded.contains, RightBounded.contains, RightBounded.flip,
      BoundType.flip, h, BoundType.less, BoundType.greater,
      decide_eq_true_eq] at h1 h2
  · exact absurd (h1.trans_le h2) (lt_irrefl _)
  · exact absurd (h2.trans_le h1) (lt_irrefl _)

/-- No value lies both in a left endpoint's half-line and in its flipped
complement. -/
theorem flip_left_disjoint {l : LeftBounded T} {t : T} :
    ¬((l.flip).contains t = true ∧ l.contains t = true) := by
  rintro ⟨h1, h2⟩
  cases h : l.bounding <;>
    simp only [LeftBounded.contains, RightBounded.contains, LeftBounded.flip,
      BoundType.flip, h, BoundType.less, BoundType.greater,
      decide_eq_true_eq] at h1 h2
  · exact absurd (h1.trans_le h2) (lt_irrefl _)
  · exact absurd (h2.trans_le h1) (lt_irrefl _)

theorem limit_le_of_not_lt {a b : LeftBounded T} (h : ¬ b.lt a) :
    a.limit ≤ b.limit := by
  rcases LeftBounded.eq_or_lt_of_not_lt h with rfl | h'
  · exact le_refl _
  · rcases LeftBounded.lt_iff.mp h' with h'' | ⟨h'', -⟩
    · exact h''.le
    · exact h''.le

theorem limit_le_of_not_lt' {a b : RightBounded T} (h : ¬ b.lt a) :
    a.limit ≤ b.limit := by
  rcases RightBounded.eq_or_lt_of_not_lt' h with rfl | h'
  · exact le_refl _
  · rcases RightBounded.lt_iff'.mp h' with h'' | ⟨h'', -⟩
    · exact h''.le
    · exact h''.le

theorem new_eq_some_iff {l : LeftBounded T} {r : RightBounded T} {i : Interval T} :
    Interval.new_ l r = some i ↔
      (isValidInterval l r = true ∧ i = ⟨l, r⟩) := by
  unfold Interval.new_
  split
  · next h => simp [h, eq_comm]
  · next h => simp [h]

/-- Absorption on the left side: a middle endpoint strictly after `b` does not
change a `min` against `b`. -/
theorem min_absorb {a g b : LeftBounded T} (h : b.lt g) :
    (a.min g).min b = a.min b := by
  by_cases hga : g.lt a
  · rw [LeftBounded.min_eq_right hga]
    rw [LeftBounded.min_eq_right h, LeftBounded.min_eq_right (LeftBounded.lt_trans h hga)]
  · rw [LeftBounded.min_eq_left hga]

/-- Absorption on the right side: a middle endpoint strictly before `b` does
not change a `max` against `b`. -/
theorem max_absorb {a g b : RightBounded T} (h : g.lt b) :
    (a.max g).max b = a.max b := by
  by_cases hga : g.lt a
  · rw [RightBounded.max_eq_left' hga]
  · rw [RightBounded.max_eq_right' hga]
    rw [RightBounded.max_eq_right' (RightBounded.lt_asymm' h)]
    have hba : ¬ b.lt a := fun hba => hga (RightBounded.lt_trans' h hba)
    rw [RightBounded.max_eq_right' hba]

theorem flip_limit {a : RightBounded T} : (a.flip).limit = a.limit := rfl

theorem flip_limit' {a : LeftBounded T} : (a.flip).limit = a.limit := rfl

theorem flip_bounding {a : RightBounded T} :
    (a.flip).bounding = a.bounding.flip := rfl

theorem flip_bounding' {a : LeftBounded T} :
    (a.flip).bounding = a.bounding.flip := rfl

theorem le_of_contains_left {a : LeftBounded T} {t : T}
    (h : a.contains t = true) : a.limit ≤ t := by
  rcases LeftBounded.contains_iff.mp h with h' | ⟨h', -⟩
  · exact h'.le
  · exact h'.le

theorem le_of_contains_right {a : RightBounded T} {t : T}
    (h : a.contains t = true) : t ≤ a.limit := by
  rcases RightBounded.contains_iff'.mp h with h' | ⟨h', -⟩
  · exact h'.le
  · exact h'.le

theorem not_lt_of_limit_lt {a b : LeftBounded T} (h : a.limit < b.limit) :
    ¬ b.lt a := by
  intro h'
  rcases LeftBounded.lt_iff.mp h' with h'' | ⟨h'', -⟩
  · exact absurd (h.trans h'') (lt_irrefl _)
  · exact absurd h (h'' ▸ lt_irrefl _)

theorem not_lt_of_limit_lt' {a b : RightBounded T} (h : a.limit < b.limit) :
    ¬ b.lt a := by
  intro h'
  rcases RightBounded.lt_iff'.mp h' with h'' | ⟨h'', -⟩
  · exact absurd (h.trans h'') (lt_irrefl _)
  · exact absurd h (h'' ▸ lt_irrefl _)

end IntervalsLemmas

theorem BoundType.eq_exclusive_of_flip {b : BoundType}
    (h : b.flip = .inclusive) : b = .exclusive := by
  cases b <;> simp_all [flip]

theorem BoundType.eq_inclusive_of_flip {b : BoundType}
    (h : b.flip = .exclusive) : b = .inclusive := by
  cases b <;> simp_all [flip]

/-! ### Sample intervals for the concrete witnesses -/

/-- The interval `[0, 3)` over the integers. -/
def sampleA : Interval Int := ⟨⟨0, .inclusive⟩, ⟨3, .exclusive⟩⟩

/-- The interval `[5, 8)` over the integers. -/
def sampleB : Interval Int := ⟨⟨5, .inclusive⟩, ⟨8, .exclusive⟩⟩

/-- The interval `[3, 5)` over the integers, the gap between the two above. -/
def sampleG : Interval Int := ⟨⟨3, .inclusive⟩, ⟨5, .exclusive⟩⟩

/-! ### The claims -/

/-- C1: `Interval::new` (and `Bound::to`, which is `Interval::new`) succeeds
exactly when each endpoint's boundary predicate admits the other endpoint's
limit value — `left.contains(right.limit) && right.contains(left.limit)` —
and fails with the empty-interval error otherwise, producing no interval.
For equal limits, Inclusive-to-Exclusive fails and Inclusive-to-Inclusive
succeeds as the single-point interval. -/
theorem c1_construction_iff_invariant :
    (∀ (T : Type) [LinearOrder T] (l r : Bound T),
      Bound.to l r = Interval.new l r ∧
      ((∃ i, Bound.to l r = some i) ↔
        (l.toLeft.contains r.limit = true ∧ r.toRight.contains l.limit = true)) ∧
      (Bound.to l r = none ↔
        ¬(l.toLeft.contains r.limit = true ∧ r.toRight.contains l.limit = true))) ∧
    Bound.to (⟨3, .inclusive⟩ : Bound Int) ⟨3, .exclusive⟩ = none ∧
    (∃ i, Bound.to (⟨3, .inclusive⟩ : Bound Int) ⟨3, .inclusive⟩ = some i ∧
      ∀ t : Int, i.contains t = true ↔ t = 3) := by
  refine ⟨fun T _ l r => ⟨rfl, ?_, ?_⟩, by decide, ?_⟩
  · rw [Bound.to, Interval.new, Interval.new_]
    by_cases h : isValidInterval l.toLeft r.toRight = true
    · rw [if_pos h]
      simp only [isValidInterval, Bool.and_eq_true, Bound.toLeft, Bound.toRight] at h
      simp [h, Bound.toLeft, Bound.toRight]
    · rw [if_neg h]
      simp only [isValidInterval, Bool.and_eq_true, Bound.toLeft, Bound.toRight] at h
      simp only [Bound.toLeft, Bound.toRight]
      simp [h]
  · rw [Bound.to, Interval.new, Interval.new_]
    by_cases h : isValidInterval l.toLeft r.toRight = true
    · rw [if_pos h]
      simp only [isValidInterval, Bool.and_eq_true, Bound.toLeft, Bound.toRight] at h
      simp [h, Bound.toLeft, Bound.toRight]
    · rw [if_neg h]
      simp only [isValidInterval, Bool.and_eq_true, Bound.toLeft, Bound.toRight] at h
      simp only [Bound.toLeft, Bound.toRight]
      simp [h]
  · refine ⟨⟨⟨3, .inclusive⟩, ⟨3, .inclusive⟩⟩, by decide, fun t => ?_⟩
    simp only [Interval.contains, LeftBounded.contains, RightBounded.contains,
      BoundType.less, BoundType.greater, Bool.and_eq_true, decide_eq_true_eq]
    omega

/-- C4: the non-allocating overlap test agrees with constructing the
intersection through the validating constructor: for all intervals `I`, `J`,
`I.overlaps(J)` is true exactly when `I.intersection(J)` returns `Some`. -/
theorem c4_overlaps_iff_intersection {T : Type} [LinearOrder T]
    (I J : Interval T) :
    I.overlaps J = true ↔ (I.intersection J).isSome = true := by
  simp only [Interval.overlaps, Interval.intersection,
    LeftBounded.intersection, RightBounded.intersection, Interval.new_]
  split
  · next h => simp [h]
  · next h => simp [h]

/-- C9: both binary operations are idempotent on every valid interval:
`I.intersection(I)` returns `Some(I)` and `I.enclosure(I)` equals `I`. -/
theorem c9_idempotence {T : Type} [LinearOrder T] (I : Interval T)
    (hI : isValidInterval I.left I.right = true) :
    I.intersection I = some I ∧ I.enclosure I = I := by
  obtain ⟨l, r⟩ := I
  dsimp only at hI
  constructor
  · simp only [Interval.intersection, LeftBounded.intersection,
      RightBounded.intersection, LeftBounded.max, RightBounded.min,
      ite_self, Interval.new_]
    rw [if_pos hI]
  · simp only [Interval.enclosure, LeftBounded.union, RightBounded.union,
      LeftBounded.min, RightBounded.max, ite_self]

/-- Witness for C9 at the concrete integer interval `[0, 3)`. -/
theorem c9_idempotence_witness :
    sampleA.intersection sampleA = some sampleA ∧
    sampleA.enclosure sampleA = sampleA :=
  c9_idempotence sampleA (by decide)

/-- C10: widening a statically-typed interval to the runtime `BoundType`
variant through `into_general` keeps both limit values, records the
`BoundType` value corresponding to each static boundary kind, and preserves
membership at every value. -/
theorem c10_into_general_preserves {T : Type} [LinearOrder T]
    (L R : BoundType) (I : StaticInterval T L R) :
    I.intoGeneral.left.limit = I.left.limit ∧
    I.intoGeneral.right.limit = I.right.limit ∧
    I.intoGeneral.left.bounding = L ∧
    I.intoGeneral.right.bounding = R ∧
    I.intoGeneral.left = (SBound.intoGeneral I.left).toLeft ∧
    I.intoGeneral.right = (SBound.intoGeneral I.right).toRight ∧
    ∀ t : T, I.intoGeneral.contains t = I.contains t :=
  ⟨rfl, rfl, rfl, rfl, rfl, rfl, fun _ => rfl⟩

/-- C2 (counterexample): over the integers the both-Exclusive interval
`(0, 1)` passes `is_valid_interval` — so `Interval::new` accepts it — yet no
integer lies in it: the claim "every accepted interval describes a non-empty
set, including discrete types such as the integers" fails on the code. -/
theorem c2_counterexample :
    Interval.new (⟨0, .exclusive⟩ : Bound Int) ⟨1, .exclusive⟩ =
      some ⟨⟨0, .exclusive⟩, ⟨1, .exclusive⟩⟩ ∧
    ¬ ∃ t : Int,
      (⟨⟨0, .exclusive⟩, ⟨1, .exclusive⟩⟩ : Interval Int).contains t = true := by
  refine ⟨by decide, ?_⟩
  rintro ⟨t, ht⟩
  simp only [Interval.contains, LeftBounded.contains, RightBounded.contains,
    BoundType.less, BoundType.greater, Bool.and_eq_true, decide_eq_true_eq] at ht
  omega

/-- C2 (amended): every interval accepted by the validating constructor with
at least one Inclusive bound contains a value, as does every accepted
interval over a densely-ordered domain; over a discrete domain a
both-Exclusive interval with adjacent limits is accepted yet empty. -/
theorem c2_accepted_nonempty {T : Type} [LinearOrder T] (I : Interval T)
    (hv : isValidInterval I.left I.right = true) :
    ((I.left.bounding = .inclusive ∨ I.right.bounding = .inclusive) →
      ∃ t, I.contains t = true) ∧
    (DenselyOrdered T → ∃ t, I.contains t = true) := by
  obtain ⟨h1, h2⟩ := IntervalsLemmas.isValid_iff.mp hv
  constructor
  · rintro (hk | hk)
    · refine ⟨I.left.limit, ?_⟩
      simp only [Interval.contains, Bool.and_eq_true]
      exact ⟨LeftBounded.contains_iff.mpr (Or.inr ⟨rfl, hk⟩), h2⟩
    · refine ⟨I.right.limit, ?_⟩
      simp only [Interval.contains, Bool.and_eq_true]
      exact ⟨h1, RightBounded.contains_iff'.mpr (Or.inr ⟨rfl, hk⟩)⟩
  · intro hD
    rcases LeftBounded.contains_iff.mp h1 with hlt | ⟨-, hk⟩
    · haveI := hD
      obtain ⟨t, ht1, ht2⟩ := exists_between hlt
      refine ⟨t, ?_⟩
      simp only [Interval.contains, Bool.and_eq_true]
      exact ⟨LeftBounded.contains_iff.mpr (Or.inl ht1),
        RightBounded.contains_iff'.mpr (Or.inl ht2)⟩
    · refine ⟨I.left.limit, ?_⟩
      simp only [Interval.contains, Bool.and_eq_true]
      exact ⟨LeftBounded.contains_iff.mpr (Or.inr ⟨rfl, hk⟩), h2⟩

/-- Witness for C2 at the integer interval `[0, 3)`, whose left bound is
Inclusive. -/
theorem c2_accepted_nonempty_witness :
    ∃ t, sampleA.contains t = true :=
  (c2_accepted_nonempty sampleA (by decide)).1 (Or.inl rfl)

/-- C3 (counterexample): the valid both-Exclusive integer interval `(0, 1)`
has `minimum() = 1` and `maximum() = 0`, and contains neither, refuting the
claim for intervals whose minimum/maximum are defined over an integer
domain. -/
theorem c3_counterexample :
    isValidInterval (⟨⟨0, .exclusive⟩, ⟨1, .exclusive⟩⟩ : Interval Int).left
        (⟨⟨0, .exclusive⟩, ⟨1, .exclusive⟩⟩ : Interval Int).right = true ∧
    (⟨⟨0, .exclusive⟩, ⟨1, .exclusive⟩⟩ : Interval Int).minimum = 1 ∧
    (⟨⟨0, .exclusive⟩, ⟨1, .exclusive⟩⟩ : Interval Int).maximum = 0 ∧
    ¬ ((⟨⟨0, .exclusive⟩, ⟨1, .exclusive⟩⟩ : Interval Int).contains
        (⟨⟨0, .exclusive⟩, ⟨1, .exclusive⟩⟩ : Interval Int).minimum = true) ∧
    ¬ ((⟨⟨0, .exclusive⟩, ⟨1, .exclusive⟩⟩ : Interval Int).contains
        (⟨⟨0, .exclusive⟩, ⟨1, .exclusive⟩⟩ : Interval Int).maximum = true) := by
  decide

/-- C3 (amended): a valid interval contains the limit of each statically
Inclusive bound (which is what `minimum`/`maximum` return for Inclusive
bounds on any domain), and over the integers a valid interval contains its
`minimum` and `maximum` whenever `minimum ≤ maximum` — the sole failing case
being a both-Exclusive interval with adjacent limits, where the minimum
exceeds the maximum. -/
theorem c3_contains_min_max :
    (∀ (T : Type) [LinearOrder T] (I : Interval T),
      isValidInterval I.left I.right = true →
      (I.left.bounding = .inclusive → I.contains I.left.limit = true) ∧
      (I.right.bounding = .inclusive → I.contains I.right.limit = true)) ∧
    (∀ I : Interval Int, isValidInterval I.left I.right = true →
      I.minimum ≤ I.maximum →
      I.contains I.minimum = true ∧ I.contains I.maximum = true) := by
  constructor
  · intro T _ I hv
    obtain ⟨h1, h2⟩ := IntervalsLemmas.isValid_iff.mp hv
    constructor
    · intro hk
      simp only [Interval.contains, Bool.and_eq_true]
      exact ⟨LeftBounded.contains_iff.mpr (Or.inr ⟨rfl, hk⟩), h2⟩
    · intro hk
      simp only [Interval.contains, Bool.and_eq_true]
      exact ⟨h1, RightBounded.contains_iff'.mpr (Or.inr ⟨rfl, hk⟩)⟩
  · intro I hv hle
    obtain ⟨⟨ll, lk⟩, ⟨rl, rk⟩⟩ := I
    cases lk <;> cases rk <;>
      simp_all [isValidInterval, Interval.contains, Interval.minimum,
        Interval.maximum, LeftBounded.minimum, RightBounded.maximum,
        LeftBounded.contains, RightBounded.contains, BoundType.less,
        BoundType.greater] <;>
      omega

/-- Witness for C3 at the integer interval `(0, 10]`, whose minimum is `1`
and maximum is `10`. -/
theorem c3_contains_min_max_witness :
    (⟨⟨0, .exclusive⟩, ⟨10, .inclusive⟩⟩ : Interval Int).contains
      (⟨⟨0, .exclusive⟩, ⟨10, .inclusive⟩⟩ : Interval Int).minimum = true ∧
    (⟨⟨0, .exclusive⟩, ⟨10, .inclusive⟩⟩ : Interval Int).contains
      (⟨⟨0, .exclusive⟩, ⟨10, .inclusive⟩⟩ : Interval Int).maximum = true :=
  c3_contains_min_max.2 ⟨⟨0, .exclusive⟩, ⟨10, .inclusive⟩⟩ (by decide) (by decide)

/-- C7 (counterexample): `includes` compares only the limit values, so the
runtime-kinded intervals `[0, 5]` and `(0, 5)` over the integers include each
other while being different values — mutual inclusion does not coincide with
equality for the `BoundType` variant. -/
theorem c7_counterexample :
    (⟨⟨0, .inclusive⟩, ⟨5, .inclusive⟩⟩ : Interval Int).includes
      ⟨⟨0, .exclusive⟩, ⟨5, .exclusive⟩⟩ = true ∧
    (⟨⟨0, .exclusive⟩, ⟨5, .exclusive⟩⟩ : Interval Int).includes
      ⟨⟨0, .inclusive⟩, ⟨5, .inclusive⟩⟩ = true ∧
    isValidInterval (⟨⟨0, .inclusive⟩, ⟨5, .inclusive⟩⟩ : Interval Int).left
      (⟨⟨0, .inclusive⟩, ⟨5, .inclusive⟩⟩ : Interval Int).right = true ∧
    isValidInterval (⟨⟨0, .exclusive⟩, ⟨5, .exclusive⟩⟩ : Interval Int).left
      (⟨⟨0, .exclusive⟩, ⟨5, .exclusive⟩⟩ : Interval Int).right = true ∧
    (⟨⟨0, .inclusive⟩, ⟨5, .inclusive⟩⟩ : Interval Int) ≠
      ⟨⟨0, .exclusive⟩, ⟨5, .exclusive⟩⟩ := by
  decide

/-- C7 (amended): mutual inclusion coincides with equality of the limit
values; since `includes` compares only limits, mutual inclusion coincides
with full equality exactly when the boundary kinds already agree side by
side — as they do for any statically-typed instantiation — but not for the
runtime `BoundType` variant, where kinds may differ. -/
theorem c7_mutual_inclusion {T : Type} [LinearOrder T] (I J : Interval T) :
    ((I.includes J = true ∧ J.includes I = true) ↔
      (I.left.limit = J.left.limit ∧ I.right.limit = J.right.limit)) ∧
    (I.left.bounding = J.left.bounding → I.right.bounding = J.right.bounding →
      ((I.includes J = true ∧ J.includes I = true) ↔ I = J)) := by
  have base : (I.includes J = true ∧ J.includes I = true) ↔
      (I.left.limit = J.left.limit ∧ I.right.limit = J.right.limit) := by
    simp only [Interval.includes, LeftBounded.includes, RightBounded.includes,
      Bool.and_eq_true, decide_eq_true_eq]
    constructor
    · rintro ⟨⟨h1, h2⟩, h3, h4⟩
      exact ⟨le_antisymm h1 h3, le_antisymm h4 h2⟩
    · rintro ⟨h1, h2⟩
      exact ⟨⟨h1.le, h2.ge⟩, h1.ge, h2.le⟩
  refine ⟨base, fun hkl hkr => ⟨fun h => ?_, fun h => ?_⟩⟩
  · obtain ⟨h1, h2⟩ := base.mp h
    obtain ⟨⟨ll, lk⟩, ⟨rl, rk⟩⟩ := I
    obtain ⟨⟨ll', lk'⟩, ⟨rl', rk'⟩⟩ := J
    simp_all
  · subst h
    exact base.mpr ⟨rfl, rfl⟩

/-- Witness for C7: the second part's hypotheses discharged at the concrete
pair `[0, 3)`, `[5, 8)` over the integers, where mutual inclusion fails and
so does equality. -/
theorem c7_mutual_inclusion_witness :
    (sampleA.includes sampleB = true ∧ sampleB.includes sampleA = true) ↔
      sampleA = sampleB :=
  (c7_mutual_inclusion sampleA sampleB).2 rfl rfl

/-- C6: `enclosure` is total and is the least upper bound for `includes`:
for valid `I`, `J` it always yields an interval — built from the less
restrictive left endpoint and the less restrictive right endpoint — that
satisfies the validity invariant (without being re-validated by the code),
includes both inputs, and is included in every interval including both. -/
theorem c6_enclosure_least_upper_bound {T : Type} [LinearOrder T]
    (I J : Interval T)
    (hI : isValidInterval I.left I.right = true)
    (hJ : isValidInterval J.left J.right = true) :
    isValidInterval (I.enclosure J).left (I.enclosure J).right = true ∧
    (I.enclosure J).includes I = true ∧
    (I.enclosure J).includes J = true ∧
    (∀ K : Interval T, K.includes I = true → K.includes J = true →
      K.includes (I.enclosure J) = true) := by
  obtain ⟨hI1, hI2⟩ := IntervalsLemmas.isValid_iff.mp hI
  obtain ⟨hJ1, hJ2⟩ := IntervalsLemmas.isValid_iff.mp hJ
  have hEl : (I.enclosure J).left = I.left.min J.left := rfl
  have hEr : (I.enclosure J).right = I.right.max J.right := rfl
  refine ⟨?_, ?_, ?_, ?_⟩
  · rw [IntervalsLemmas.isValid_iff, hEl, hEr]
    constructor
    · rcases RightBounded.max_eq_or' (a := I.right) (b := J.right) with hR | hR <;>
        rw [hR]
      · exact LeftBounded.contains_of_not_lt LeftBounded.not_lt_min_left hI1
      · exact LeftBounded.contains_of_not_lt LeftBounded.not_lt_min_right hJ1
    · rcases LeftBounded.min_eq_or (a := I.left) (b := J.left) with hL | hL <;>
        rw [hL]
      · exact RightBounded.contains_of_not_lt' RightBounded.not_max_lt_left' hI2
      · exact RightBounded.contains_of_not_lt' RightBounded.not_max_lt_right' hJ2
  · simp only [Interval.includes, Bool.and_eq_true, hEl, hEr,
      LeftBounded.includes, RightBounded.includes, decide_eq_true_eq]
    exact ⟨IntervalsLemmas.limit_le_of_not_lt LeftBounded.not_lt_min_left,
      IntervalsLemmas.limit_le_of_not_lt' RightBounded.not_max_lt_left'⟩
  · simp only [Interval.includes, Bool.and_eq_true, hEl, hEr,
      LeftBounded.includes, RightBounded.includes, decide_eq_true_eq]
    exact ⟨IntervalsLemmas.limit_le_of_not_lt LeftBounded.not_lt_min_right,
      IntervalsLemmas.limit_le_of_not_lt' RightBounded.not_max_lt_right'⟩
  · intro K hKI hKJ
    simp only [Interval.includes, Bool.and_eq_true, LeftBounded.includes,
      RightBounded.includes, decide_eq_true_eq] at hKI hKJ ⊢
    rw [hEl, hEr]
    constructor
    · rcases LeftBounded.min_eq_or (a := I.left) (b := J.left) with hL | hL <;>
        rw [hL]
      · exact hKI.1
      · exact hKJ.1
    · rcases RightBounded.max_eq_or' (a := I.right) (b := J.right) with hR | hR <;>
        rw [hR]
      · exact hKI.2
      · exact hKJ.2

/-- Witness for C6 at the concrete integer intervals `[0, 3)` and `[5, 8)`,
with the minimality part instantiated at `[0, 8)`. -/
theorem c6_enclosure_least_upper_bound_witness :
    isValidInterval (sampleA.enclosure sampleB).left
      (sampleA.enclosure sampleB).right = true ∧
    (sampleA.enclosure sampleB).includes sampleA = true ∧
    (sampleA.enclosure sampleB).includes sampleB = true ∧
    (⟨⟨0, .inclusive⟩, ⟨8, .exclusive⟩⟩ : Interval Int).includes
      (sampleA.enclosure sampleB) = true :=
  ⟨(c6_enclosure_least_upper_bound sampleA sampleB (by decide) (by decide)).1,
   (c6_enclosure_least_upper_bound sampleA sampleB (by decide) (by decide)).2.1,
   (c6_enclosure_least_upper_bound sampleA sampleB (by decide) (by decide)).2.2.1,
   (c6_enclosure_least_upper_bound sampleA sampleB (by decide) (by decide)).2.2.2
     ⟨⟨0, .inclusive⟩, ⟨8, .exclusive⟩⟩ (by decide) (by decide)⟩

/-- C5: the gap/union law: when `I.gap(J)` returns `Some(G)`, the gap `G` is
disjoint from both `I` and `J` — no value is contained in `G` together with
`I` or with `J` — and the enclosure absorbs the gap:
`I.enclosure(J) = I.enclosure(G).enclosure(J)`. -/
theorem c5_gap_law {T : Type} [LinearOrder T] (I J G : Interval T)
    (hI : isValidInterval I.left I.right = true)
    (hJ : isValidInterval J.left J.right = true)
    (hG : I.gap J = some G) :
    (∀ t : T, ¬(G.contains t = true ∧ I.contains t = true)) ∧
    (∀ t : T, ¬(G.contains t = true ∧ J.contains t = true)) ∧
    I.enclosure J = (I.enclosure G).enclosure J := by
  unfold Interval.gap at hG
  cases h1 : Interval.new_ I.right.flip J.left.flip with
  | some g =>
    rw [h1] at hG
    rw [Option.some.injEq] at hG
    subst hG
    obtain ⟨hGv, rfl⟩ := IntervalsLemmas.new_eq_some_iff.mp h1
    refine ⟨fun t h => ?_, fun t h => ?_, ?_⟩
    · obtain ⟨hg1, hg2⟩ := Bool.and_eq_true_iff.mp h.1
      obtain ⟨hi1, hi2⟩ := Bool.and_eq_true_iff.mp h.2
      exact IntervalsLemmas.flip_right_disjoint ⟨hg1, hi2⟩
    · obtain ⟨hg1, hg2⟩ := Bool.and_eq_true_iff.mp h.1
      obtain ⟨hj1, hj2⟩ := Bool.and_eq_true_iff.mp h.2
      exact IntervalsLemmas.flip_left_disjoint ⟨hg2, hj1⟩
    · have hA := IntervalsLemmas.left_lt_flip_of_valid hI
      have hB := IntervalsLemmas.flip_lt_right_of_valid hJ
      show Interval.mk (I.left.min J.left) (I.right.max J.right) =
        Interval.mk ((I.left.min I.right.flip).min J.left)
          ((I.right.max J.left.flip).max J.right)
      rw [LeftBounded.min_eq_left (LeftBounded.lt_asymm hA),
        IntervalsLemmas.max_absorb hB]
  | none =>
    rw [h1] at hG
    have hG2 : Interval.new_ J.right.flip I.left.flip = some G := hG
    obtain ⟨hGv, rfl⟩ := IntervalsLemmas.new_eq_some_iff.mp hG2
    refine ⟨fun t h => ?_, fun t h => ?_, ?_⟩
    · obtain ⟨hg1, hg2⟩ := Bool.and_eq_true_iff.mp h.1
      obtain ⟨hi1, hi2⟩ := Bool.and_eq_true_iff.mp h.2
      exact IntervalsLemmas.flip_left_disjoint ⟨hg2, hi1⟩
    · obtain ⟨hg1, hg2⟩ := Bool.and_eq_true_iff.mp h.1
      obtain ⟨hj1, hj2⟩ := Bool.and_eq_true_iff.mp h.2
      exact IntervalsLemmas.flip_right_disjoint ⟨hg1, hj2⟩
    · have hA := IntervalsLemmas.left_lt_flip_of_valid hJ
      have hB := IntervalsLemmas.flip_lt_right_of_valid hI
      show Interval.mk (I.left.min J.left) (I.right.max J.right) =
        Interval.mk ((I.left.min J.right.flip).min J.left)
          ((I.right.max I.left.flip).max J.right)
      rw [IntervalsLemmas.min_absorb hA, RightBounded.max_eq_left' hB]

/-- Witness for C5 at the concrete gap `[3, 5)` between `[0, 3)` and
`[5, 8)` over the integers: disjointness instantiated at the value `4`,
together with the enclosure-absorption equation. -/
theorem c5_gap_law_witness :
    ¬(sampleG.contains 4 = true ∧ sampleA.contains 4 = true) ∧
    sampleA.enclosure sampleB =
      (sampleA.enclosure sampleG).enclosure sampleB :=
  ⟨(c5_gap_law sampleA sampleB sampleG (by decide) (by decide) (by decide)).1 4,
   (c5_gap_law sampleA sampleB sampleG (by decide) (by decide) (by decide)).2.2⟩

/-- C8: `union` returns exactly the pair of `enclosure` and `gap`; iterating
the result yields the single enclosure when there is no gap, and when there
is a gap it yields exactly the two intervals obtained by splitting the
enclosure at the gap's flipped bounds — which, when `I` lies entirely left of
`J` (its right limit not beyond `J`'s left limit), are `I` and `J` in that
order. -/
theorem c8_union_decomposition {T : Type} [LinearOrder T] (I J : Interval T)
    (hI : isValidInterval I.left I.right = true)
    (hJ : isValidInterval J.left J.right = true) :
    (I.union J).enclosure = I.enclosure J ∧
    (I.union J).gap = I.gap J ∧
    (I.gap J = none → (I.union J).toList = [I.enclosure J]) ∧
    (∀ G, I.gap J = some G → (I.union J).toList =
      [⟨(I.enclosure J).left, G.left.flip⟩, ⟨G.right.flip, (I.enclosure J).right⟩]) ∧
    (I.right.limit ≤ J.left.limit → ∀ G, I.gap J = some G →
      (I.union J).toList = [I, J]) := by
  refine ⟨rfl, rfl, fun h => ?_, fun G h => ?_, fun hle G h => ?_⟩
  · simp [Interval.union, IntervalUnion.toList, h]
  · simp [Interval.union, IntervalUnion.toList, h]
  · obtain ⟨hI1, hI2⟩ := IntervalsLemmas.isValid_iff.mp hI
    obtain ⟨hJ1, hJ2⟩ := IntervalsLemmas.isValid_iff.mp hJ
    have hgap := h
    unfold Interval.gap at hgap
    cases h1 : Interval.new_ I.right.flip J.left.flip with
    | some g =>
      rw [h1] at hgap
      rw [Option.some.injEq] at hgap
      subst hgap
      obtain ⟨hGv, rfl⟩ := IntervalsLemmas.new_eq_some_iff.mp h1
      obtain ⟨hg1, hg2⟩ := IntervalsLemmas.isValid_iff.mp hGv
      -- the two strict limit inequalities forced by the gap's validity
      have hll : I.left.limit < J.left.limit := by
        rcases LeftBounded.contains_iff.mp hg1 with h' | ⟨h', hk⟩ <;>
          simp only [IntervalsLemmas.flip_limit, IntervalsLemmas.flip_limit'] at h'
        · exact lt_of_le_of_lt (IntervalsLemmas.le_of_contains_right hI2) h'
        · have hexc : I.right.bounding = .exclusive :=
            BoundType.eq_exclusive_of_flip hk
          rcases RightBounded.contains_iff'.mp hI2 with h'' | ⟨-, h3⟩
          · exact lt_of_lt_of_le h'' (le_of_eq h')
          · rw [hexc] at h3; cases h3
      have hrr : I.right.limit < J.right.limit := by
        rcases RightBounded.contains_iff'.mp hg2 with h' | ⟨h', hk⟩ <;>
          simp only [IntervalsLemmas.flip_limit, IntervalsLemmas.flip_limit'] at h'
        · exact lt_of_lt_of_le h' (IntervalsLemmas.le_of_contains_left hJ1)
        · have hexc : J.left.bounding = .exclusive :=
            BoundType.eq_exclusive_of_flip hk
          rcases LeftBounded.contains_iff.mp hJ1 with h'' | ⟨-, h3⟩
          · exact lt_of_le_of_lt (le_of_eq h') h''
          · rw [hexc] at h3; cases h3
      simp only [Interval.union, IntervalUnion.toList, h, Interval.enclosure,
        LeftBounded.union, RightBounded.union]
      rw [LeftBounded.flip_flip, RightBounded.flip_flip',
        LeftBounded.min_eq_left (IntervalsLemmas.not_lt_of_limit_lt hll),
        RightBounded.max_eq_right' (IntervalsLemmas.not_lt_of_limit_lt' hrr)]
    | none =>
      exfalso
      rw [h1] at hgap
      have hG2 : Interval.new_ J.right.flip I.left.flip = some G := hgap
      obtain ⟨hGv, -⟩ := IntervalsLemmas.new_eq_some_iff.mp hG2
      obtain ⟨hg1, hg2⟩ := IntervalsLemmas.isValid_iff.mp hGv
      have c1 : I.left.limit ≤ I.right.limit :=
        IntervalsLemmas.le_of_contains_left hI1
      have c3 : J.left.limit ≤ J.right.limit :=
        IntervalsLemmas.le_of_contains_left hJ1
      rcases LeftBounded.contains_iff.mp hg1 with h' | ⟨h', hk⟩ <;>
        simp only [IntervalsLemmas.flip_limit, IntervalsLemmas.flip_limit'] at h'
      · -- J.right.limit < I.left.limit contradicts the ≤-cycle
        exact absurd (((h'.trans_le c1).trans_le hle).trans_le c3) (lt_irrefl _)
      · -- limits all equal, J.right Exclusive: contradicts J's own validity
        have hexc : J.right.bounding = .exclusive :=
          BoundType.eq_exclusive_of_flip hk
        rcases RightBounded.contains_iff'.mp hJ2 with h'' | ⟨-, h3⟩
        · -- J.left.limit < J.right.limit, but the ≤-cycle forces the reverse
          have hback : J.right.limit ≤ J.left.limit := h'.le.trans (c1.trans hle)
          exact absurd (h''.trans_le hback) (lt_irrefl _)
        · rw [hexc] at h3; cases h3

/-- Witness for C8 at `[0, 3)` and `[5, 8)` over the integers, whose gap is
`[3, 5)`: iterating the union yields the two inputs in order. -/
theorem c8_union_decomposition_witness :
    (sampleA.union sampleB).enclosure = sampleA.enclosure sampleB ∧
    (sampleA.union sampleB).toList = [sampleA, sampleB] :=
  ⟨(c8_union_decomposition sampleA sampleB (by decide) (by decide)).1,
   (c8_union_decomposition sampleA sampleB (by decide) (by decide)).2.2.2.2
     (by decide) sampleG (by decide)⟩

end IntervalsRs
